import Mathlib

/-!
Verification of the gorepo-cli monorepo tool (Go, package `main`).

The development shallowly embeds the configuration-discovery and
script-dispatch pipeline of the CLI:

* `getRootPath` embeds `getRootPath` (upward search for the root marker,
  bounded by `MaxRecursion = 7`);
* `getModules` embeds the sorting step of `Config.GetModules`
  (its input is the list of module configs in filesystem walk order);
* `resolveTargets`, `dispatch`, `runScripts` and `runCommand` decompose
  `Commands.Run`:
  - `resolveTargets` is the loop selecting modules from the `--target` tokens,
  - `dispatch` is the missing-script classification plus execution,
  - `runScripts` is the execution loop,
  - `runCommand` is the whole command body;
* `bashCommand` embeds `Exec.BashCommand`, with the child process outcome
  abstracted as an oracle `String → String → Option String`
  (`none` = success, `some cause` = failure cause);
* `init` embeds `Commands.Init`, with console replies and collaborator
  outcomes supplied through `InitEnv`, and the performed side effects
  (prompts, `go work init`, config write) recorded as a trace.

Directories are modelled as lists of path components (the filesystem root is
`[]`, and `filepath.Dir` is `List.dropLast`); TOML string maps are modelled as
association lists, whose lookup returns the empty string when the key is
absent, exactly like a Go map of strings.
-/

deriving instance DecidableEq for Except

namespace Gorepo

/-- `ModuleConfig` from the source: `Name` and `RelativePath` are derived at
runtime, `Scripts` is the persisted script map (modelled as an association
list, first binding wins as in `toml` decoding of a map). -/
structure ModuleConfig where
  name : String
  relativePath : String
  scripts : List (String × String)
deriving DecidableEq, Repr

/-- `RootConfig` from the source. -/
structure RootConfig where
  name : String
  version : String
  strategy : String
  vendor : Bool
  scripts : List (String × String)
deriving DecidableEq, Repr

/-- Go map read `m[key]`: the zero value `""` when the key is absent. -/
def lookupScript (scripts : List (String × String)) (key : String) : String :=
  match scripts.find? (fun kv => kv.1 == key) with
  | none => ""
  | some kv => kv.2

/-- The missing-script test of `Commands.Run`:
`if _, ok := module.Scripts[scriptName]; !ok || module.Scripts[scriptName] == ""`. -/
def scriptMissing (m : ModuleConfig) (scriptName : String) : Bool :=
  match m.scripts.find? (fun kv => kv.1 == scriptName) with
  | none => true
  | some kv => kv.2 == ""

/-- The helper `contains` from the source (linear scan of a string slice). -/
def contains (s : List String) (e : String) : Bool :=
  match s with
  | [] => false
  | a :: rest => if a == e then true else contains rest e

/-! ### Root resolution (`getRootPath`)

A directory is a list of path components; `hasMarker d` says whether
`<d>/work.toml` exists.  The Go loop `for i := 0; i <= MaxRecursion; i++`
with `MaxRecursion = 7` runs at most 8 iterations; `filepath.Dir` is
`dropLast`, and at the filesystem root the parent equals the directory. -/

/-- One translation of the `for` body of `getRootPath`; the `Nat` argument is
the number of loop iterations still allowed. -/
def getRootPathLoop (hasMarker : List String → Bool) (wd : List String) :
    Nat → List String → Except String (List String)
  | 0, _ => .error "root not found"
  | fuel + 1, currentDir =>
    if hasMarker currentDir then .ok currentDir
    else
      let parentDir := currentDir.dropLast
      if parentDir == currentDir then .ok wd
      else getRootPathLoop hasMarker wd fuel parentDir

/-- `getRootPath` from the source, for `MaxRecursion = 7` (so 8 iterations). -/
def getRootPath (hasMarker : List String → Bool) (wd : List String) :
    Except String (List String) :=
  getRootPathLoop hasMarker wd 8 wd

/-! ### Module discovery (`Config.GetModules`)

The walk itself is a filesystem collaborator; its contribution is the list of
module configs in visit order.  The final step of `GetModules` sorts that
list ascending by name (`sort.Slice` with `modules[i].Name < modules[j].Name`),
modelled by `mergeSort` on the reflexive closure of that comparison. -/

/-- Lexicographic comparison of character lists: the reflexive closure of
Go's `<` on strings, used by the `sort.Slice` call of `GetModules`. -/
def charListLe : List Char → List Char → Bool
  | [], _ => true
  | _ :: _, [] => false
  | a :: s, b :: t =>
    if a < b then true
    else if b < a then false
    else charListLe s t

/-- `a <= b` on strings, character-wise (Go compares byte-wise; module names
here are ASCII, where the two coincide). -/
def nameLe (a b : String) : Prop :=
  charListLe a.data b.data = true

instance : DecidableRel nameLe := fun a b =>
  inferInstanceAs (Decidable (charListLe a.data b.data = true))

/-- The comparison of `GetModules`: ascending by module name. -/
def byName (a b : ModuleConfig) : Prop :=
  nameLe a.name b.name

instance : DecidableRel byName := fun a b =>
  inferInstanceAs (Decidable (charListLe a.name.data b.name.data = true))

/-- The sorting step of `GetModules`: `visited` is the module list in
filesystem walk order; `sort.Slice` (an arbitrary correct comparison sort)
is modelled by insertion sort on the reflexive closure of the strict
name comparison. -/
def getModules (visited : List ModuleConfig) : List ModuleConfig :=
  List.insertionSort byName visited

/-! ### The `run` command -/

/-- Splitting a character list on a separator; `acc` holds the pending token
reversed. -/
def splitOnCharAux (sep : Char) : List Char → List Char → List String
  | [], acc => [String.mk acc.reverse]
  | c :: rest, acc =>
    if c = sep then String.mk acc.reverse :: splitOnCharAux sep rest []
    else splitOnCharAux sep rest (c :: acc)

/-- Go's `strings.Split(s, ",")`: always returns at least one token, and
splitting the empty string yields `[""]`. -/
def splitComma (s : String) : List String :=
  splitOnCharAux ',' s.data []

/-- The error outcomes of `Commands.Run`, one constructor per `errors.New`
site (plus `execFailed` for an error propagated from the exec collaborator);
`RunError.message` recovers the exact Go error strings. -/
inductive RunError where
  | monorepoNotFound (root : String)
  | noScriptName
  | rootAndModules
  | discoveryFailed (msg : String)
  | missingAll
  | missingSome (scriptName : String) (missing : List String)
  | execFailed (msg : String)
deriving DecidableEq, Repr

/-- The error text of each `RunError`, as written in the source. -/
def RunError.message : RunError → String
  | .monorepoNotFound root => "monorepo not found at " ++ root
  | .noScriptName => "no script name provided, usage: gorepo run [script_name]"
  | .rootAndModules =>
      "cannot run script in root and in modules at the same time, you\x27re being too fancy"
  | .discoveryFailed msg => msg
  | .missingAll => "not running script, because it is missing in all modules"
  | .missingSome scriptName missing =>
      "not running script, because it is missing in following modules \x27" ++
        scriptName ++ "\x27 :" ++ String.intercalate ", " missing
  | .execFailed msg => msg

/-- `Exec.BashCommand`: runs `script` in `absolutePath`; the child process
outcome (including a missing directory) is the oracle's answer, and a failure
is wrapped naming the directory and the underlying cause, as in
`fmt.Errorf("failed to run command in %s: %w", absolutePath, err)`. -/
def bashCommand (oracle : String → String → Option String)
    (absolutePath script : String) : Except String Unit :=
  match oracle absolutePath script with
  | none => .ok ()
  | some cause => .error ("failed to run command in " ++ absolutePath ++ ": " ++ cause)

/-- The execution loop of `Commands.Run` (`// execute them`).  Returns the
trace of exec-collaborator invocations `(directory, script)` in order, and
the outcome: the first failing invocation stops the loop and its error is
returned. -/
def runScripts (exec : String → String → Except String Unit)
    (root scriptName : String) (dryRun : Bool) :
    List ModuleConfig → List (String × String) × Except RunError Unit
  | [] => ([], .ok ())
  | m :: rest =>
    let path := root ++ "/" ++ m.relativePath
    let script := lookupScript m.scripts scriptName
    if script == "" then
      runScripts exec root scriptName dryRun rest
    else if dryRun then
      runScripts exec root scriptName dryRun rest
    else
      match exec path script with
      | .error e => ([(path, script)], .error (.execFailed e))
      | .ok _ =>
        let r := runScripts exec root scriptName dryRun rest
        ((path, script) :: r.1, r.2)

/-- The missing-script classification of `Commands.Run` followed by the
execution loop: the dispatcher proper. -/
def dispatch (exec : String → String → Except String Unit)
    (root scriptName : String) (allowMissing dryRun : Bool)
    (modules : List ModuleConfig) :
    List (String × String) × Except RunError Unit :=
  let modulesWithoutScript :=
    (modules.filter (fun m => scriptMissing m scriptName)).map (fun m => m.name)
  if modulesWithoutScript.length = modules.length then
    ([], .error .missingAll)
  else if 0 < modulesWithoutScript.length ∧ allowMissing = false then
    ([], .error (.missingSome scriptName modulesWithoutScript))
  else
    runScripts exec root scriptName dryRun modules

/-- The module-selection loop of `Commands.Run`: keep each discovered module
(in discovery order) when the first token is `all` or some token equals the
module name. -/
def resolveTargets (targets : List String) (allModules : List ModuleConfig) :
    List ModuleConfig :=
  allModules.filter (fun m => (targets.headD "" == "all") || contains targets m.name)

/-- The body of `Commands.Run`.  `rootConfigExists` is the result of
`RootConfigExists`, `discovered` the result of `GetModules` (discovery order
does not matter past `getModules`, so the sorted list is passed directly),
`targetFlag` the raw `--target` value; the trace lists the exec-collaborator
invocations made. -/
def runCommand (exec : String → String → Except String Unit)
    (rootConfigExists : Bool) (root scriptName targetFlag : String)
    (allowMissing dryRun : Bool)
    (discovered : Except String (List ModuleConfig)) :
    List (String × String) × Except RunError Unit :=
  if rootConfigExists = false then ([], .error (.monorepoNotFound root))
  else if scriptName == "" then ([], .error .noScriptName)
  else
    let targets := splitComma targetFlag
    if contains targets "root" = true ∧ 1 < targets.length then
      ([], .error .rootAndModules)
    else if targets.headD "" == "root" then
      ([], .ok ())
    else
      match discovered with
      | .error e => ([], .error (.discoveryFailed e))
      | .ok allModules =>
        dispatch exec root scriptName allowMissing dryRun
          (resolveTargets targets allModules)

/-! ### The `init` command (`Commands.Init`)

Console replies and collaborator outcomes are supplied up front through
`InitEnv`; the side effects the command performs (prompts printed, the
`go work init` invocation, the root-config write) are recorded as a trace in
program order.  Stdin read errors are not modelled: a reply is always
available. -/

/-- `filepath.Base` for a clean slash-separated path (the shape `ROOT`
always has here): the last path component. -/
def baseName (p : String) : String :=
  (splitOnCharAux '/' p.data []).getLastD p

/-- An ASCII whitespace character (the cases `strings.TrimSpace` meets from
console input). -/
def isSpaceChar (c : Char) : Bool :=
  c = ' ' ∨ c = '\t' ∨ c = '\n' ∨ c = '\r'

/-- `strings.TrimSpace` (restricted to ASCII whitespace). -/
def trimSpace (s : String) : String :=
  String.mk (((s.data.dropWhile isSpaceChar).reverse.dropWhile isSpaceChar).reverse)

/-- The inputs of one `Commands.Init` invocation. -/
structure InitEnv where
  /-- Result of `RootConfigExists`. -/
  rootConfigExists : Bool
  /-- Result of `GoWorkspaceExists`. -/
  goWorkspaceExists : Bool
  /-- `Runtime.ROOT`. -/
  root : String
  /-- `c.Args().Get(0)`, `""` when no positional argument was given. -/
  argName : String
  /-- Stdin reply to the name prompt. -/
  nameResponse : String
  /-- Stdin reply to the vendor prompt. -/
  vendorResponse : String
  /-- Outcome of `go work init` (`some msg` = the command failed). -/
  goWorkInitError : Option String
  /-- Outcome of `Fs.Write` for the root config (`some msg` = failure). -/
  writeError : Option String
deriving DecidableEq, Repr

/-- The observable side effects of `Commands.Init`, in program order. -/
inductive InitEffect where
  /-- The interactive name prompt, with the printed prompt text. -/
  | promptName (prompt : String)
  /-- The interactive vendor prompt, with the printed prompt text. -/
  | promptVendor (prompt : String)
  /-- The `go work init` invocation at the root. -/
  | goWorkInit
  /-- The root-config write (`WriteRootConfig`). -/
  | writeRootConfig (cfg : RootConfig)
deriving DecidableEq, Repr

/-- The error outcomes of `Commands.Init`; `InitError.message` recovers the
Go error strings. -/
inductive InitError where
  | alreadyExists (root : String)
  | goCommandFailed (msg : String)
  | rewriteUnsupported
  | invalidStrategy (strategy : String)
  | writeFailed (msg : String)
deriving DecidableEq, Repr

/-- The error text of each `InitError`, as written in the source. -/
def InitError.message : InitError → String
  | .alreadyExists root => "monorepo already exists at " ++ root
  | .goCommandFailed msg => msg
  | .rewriteUnsupported => "rewrite strategy unsupported yet"
  | .invalidStrategy strategy => "invalid strategy \x27" ++ strategy ++ "\x27"
  | .writeFailed msg => msg

/-- The vendor prompt text printed by `Commands.Init` (color codes elided). -/
def vendorPromptText : String :=
  "Do you want to vendor dependencies? (y/n) " ++ "default: (y)" ++ " "

/-- The name prompt text printed by `Commands.Init` (color codes elided). -/
def namePromptText (defaultName : String) : String :=
  "Enter the monorepo name: " ++ "default: (" ++ defaultName ++ ")" ++ " "

/-- The tail of `Commands.Init` after the prompts: the go-workspace handling
and the root-config write, appended to the effects `pre` already performed. -/
def initFinish (env : InitEnv) (rootConfig : RootConfig) (pre : List InitEffect) :
    List InitEffect × Except InitError Unit :=
  if rootConfig.strategy == "workspace" then
    if env.goWorkspaceExists = false then
      match env.goWorkInitError with
      | some msg => (pre ++ [.goWorkInit], .error (.goCommandFailed msg))
      | none =>
        match env.writeError with
        | some msg =>
            (pre ++ [.goWorkInit, .writeRootConfig rootConfig], .error (.writeFailed msg))
        | none => (pre ++ [.goWorkInit, .writeRootConfig rootConfig], .ok ())
    else
      match env.writeError with
      | some msg => (pre ++ [.writeRootConfig rootConfig], .error (.writeFailed msg))
      | none => (pre ++ [.writeRootConfig rootConfig], .ok ())
  else if rootConfig.strategy == "rewrite" then
    (pre, .error .rewriteUnsupported)
  else
    (pre, .error (.invalidStrategy rootConfig.strategy))

/-- `Commands.Init`: guard on an existing root config, resolve the name
(positional argument, else prompt with the root folder base name as default),
always prompt for vendoring (`y` ⇒ true), then `initFinish`. -/
def init (env : InitEnv) : List InitEffect × Except InitError Unit :=
  if env.rootConfigExists = true then
    ([], .error (.alreadyExists env.root))
  else
    let defaultName := baseName env.root
    let nameEffects : List InitEffect :=
      if env.argName == "" then [.promptName (namePromptText defaultName)] else []
    let name :=
      if env.argName == "" then
        if trimSpace env.nameResponse == "" then defaultName
        else trimSpace env.nameResponse
      else env.argName
    let vendor := trimSpace env.vendorResponse == "y"
    let rootConfig : RootConfig :=
      { name := name, version := "0.1.0", strategy := "workspace",
        vendor := vendor, scripts := [] }
    initFinish env rootConfig (nameEffects ++ [.promptVendor vendorPromptText])

/-! ## Helper lemmas -/

theorem contains_iff_mem (s : List String) (e : String) :
    contains s e = true ↔ e ∈ s := by
  induction s with
  | nil => simp [contains]
  | cons a rest ih =>
    by_cases h : a = e
    · subst h; simp [contains]
    · have hb : (a == e) = false := by simpa using h
      simp [contains, hb, ih, h, Ne.symm h]

theorem charListLe_total : ∀ x y : List Char,
    charListLe x y = true ∨ charListLe y x = true
  | [], _ => .inl rfl
  | _ :: _, [] => .inr rfl
  | a :: s, b :: t => by
    simp only [charListLe]
    rcases lt_trichotomy a b with h | h | h
    · left; rw [if_pos h]
    · subst h
      rcases charListLe_total s t with hc | hc
      · left; rw [if_neg (lt_irrefl a), if_neg (lt_irrefl a)]; exact hc
      · right; rw [if_neg (lt_irrefl a), if_neg (lt_irrefl a)]; exact hc
    · right; rw [if_pos h]

theorem charListLe_trans : ∀ x y z : List Char,
    charListLe x y = true → charListLe y z = true → charListLe x z = true
  | [], _, _, _, _ => rfl
  | _ :: _, [], _, h, _ => by simp [charListLe] at h
  | _ :: _, _ :: _, [], _, h => by simp [charListLe] at h
  | a :: s, b :: t, c :: u, h1, h2 => by
    simp only [charListLe] at h1 h2 ⊢
    by_cases hab : a < b
    · by_cases hbc : b < c
      · rw [if_pos (lt_trans hab hbc)]
      · by_cases hcb : c < b
        · rw [if_neg hbc, if_pos hcb] at h2
          exact absurd h2 (by simp)
        · have he : b = c := le_antisymm (le_of_not_lt hcb) (le_of_not_lt hbc)
          subst he
          rw [if_pos hab]
    · by_cases hba : b < a
      · rw [if_neg hab, if_pos hba] at h1
        exact absurd h1 (by simp)
      · have he : a = b := le_antisymm (le_of_not_lt hba) (le_of_not_lt hab)
        subst he
        rw [if_neg (lt_irrefl a), if_neg (lt_irrefl a)] at h1
        by_cases hac : a < c
        · rw [if_pos hac]
        · by_cases hca : c < a
          · rw [if_neg hac, if_pos hca] at h2
            exact absurd h2 (by simp)
          · have he2 : a = c := le_antisymm (le_of_not_lt hca) (le_of_not_lt hac)
            subst he2
            rw [if_neg (lt_irrefl a), if_neg (lt_irrefl a)] at h2 ⊢
            exact charListLe_trans s t u h1 h2

theorem charListLe_antisymm : ∀ x y : List Char,
    charListLe x y = true → charListLe y x = true → x = y
  | [], [], _, _ => rfl
  | [], _ :: _, _, h => by simp [charListLe] at h
  | _ :: _, [], h, _ => by simp [charListLe] at h
  | a :: s, b :: t, h1, h2 => by
    simp only [charListLe] at h1 h2
    by_cases hab : a < b
    · rw [if_neg (lt_asymm hab), if_pos hab] at h2
      exact absurd h2 (by simp)
    · by_cases hba : b < a
      · rw [if_neg hab, if_pos hba] at h1
        exact absurd h1 (by simp)
      · have he : a = b := le_antisymm (le_of_not_lt hba) (le_of_not_lt hab)
        subst he
        rw [if_neg (lt_irrefl a), if_neg (lt_irrefl a)] at h1 h2
        rw [charListLe_antisymm s t h1 h2]

instance : IsTotal ModuleConfig byName :=
  ⟨fun a b => charListLe_total a.name.data b.name.data⟩

instance : IsTrans ModuleConfig byName :=
  ⟨fun a b c => charListLe_trans a.name.data b.name.data c.name.data⟩

instance : IsTotal String nameLe :=
  ⟨fun a b => charListLe_total a.data b.data⟩

instance : IsTrans String nameLe :=
  ⟨fun a b c => charListLe_trans a.data b.data c.data⟩

instance : IsAntisymm String nameLe := by
  refine ⟨fun a b h1 h2 => ?_⟩
  cases a with
  | mk da =>
    cases b with
    | mk db => exact congrArg String.mk (charListLe_antisymm da db h1 h2)

instance : IsRefl String nameLe := by
  refine ⟨fun a => ?_⟩
  rcases charListLe_total a.data a.data with h | h <;> exact h

/-- If the marker is present at `r` and absent strictly below it on the search
path, the loop reaches `r` provided it has fuel for each level. -/
theorem getRootPathLoop_marker (hasMarker : List String → Bool) (wd r : List String)
    (hr : hasMarker r = true) :
    ∀ (s : List String) (fuel : Nat), s.length < fuel →
      (∀ k < s.length, hasMarker (r ++ s.take (k + 1)) = false) →
      getRootPathLoop hasMarker wd fuel (r ++ s) = .ok r := by
  intro s
  induction s using List.reverseRecOn with
  | nil =>
    intro fuel hfuel _
    cases fuel with
    | zero => omega
    | succ f => simp [getRootPathLoop, hr]
  | append_singleton t a ih =>
    intro fuel hfuel hmiss
    cases fuel with
    | zero => simp at hfuel
    | succ f =>
      have htake : (t ++ [a]).take (t.length + 1) = t ++ [a] := by
        have hl : t.length + 1 = (t ++ [a]).length := by simp
        rw [hl, List.take_length]
      have hcur : hasMarker (r ++ (t ++ [a])) = false := by
        have h0 := hmiss t.length (by simp)
        rwa [htake] at h0
      have hassoc : r ++ (t ++ [a]) = (r ++ t) ++ [a] := (List.append_assoc r t [a]).symm
      have hdrop : (r ++ (t ++ [a])).dropLast = r ++ t := by
        rw [hassoc, List.dropLast_concat]
      have hne : ((r ++ (t ++ [a])).dropLast == r ++ (t ++ [a])) = false := by
        rw [hdrop, hassoc]
        simp
      rw [getRootPathLoop]
      simp only [hcur, hne, Bool.false_eq_true, if_false]
      rw [hdrop]
      apply ih f (by simp at hfuel; omega)
      intro k hk
      have htk : (t ++ [a]).take (k + 1) = t.take (k + 1) :=
        List.take_append_of_le_length (by omega)
      have h0 := hmiss k (by simp; omega)
      rwa [htk] at h0

/-- If the marker is absent on the whole chain up to the filesystem root and
there is fuel for each level, the loop hits the boundary and falls back. -/
theorem getRootPathLoop_boundary (hasMarker : List String → Bool) (wd : List String) :
    ∀ (cur : List String) (fuel : Nat), cur.length < fuel →
      (∀ k < cur.length + 1, hasMarker (cur.take k) = false) →
      getRootPathLoop hasMarker wd fuel cur = .ok wd := by
  intro cur
  induction cur using List.reverseRecOn with
  | nil =>
    intro fuel hfuel hmiss
    cases fuel with
    | zero => omega
    | succ f =>
      have h0 : hasMarker [] = false := by simpa using hmiss 0 (by omega)
      simp [getRootPathLoop, h0]
  | append_singleton t a ih =>
    intro fuel hfuel hmiss
    cases fuel with
    | zero => simp at hfuel
    | succ f =>
      have hcur : hasMarker (t ++ [a]) = false := by
        have h0 := hmiss ((t ++ [a]).length) (by omega)
        rwa [List.take_length] at h0
      have hne : ((t ++ [a]).dropLast == t ++ [a]) = false := by
        rw [List.dropLast_concat]
        simp
      rw [getRootPathLoop]
      simp only [hcur, hne, Bool.false_eq_true, if_false]
      rw [List.dropLast_concat]
      apply ih f (by simp at hfuel; omega)
      intro k hk
      have htk : (t ++ [a]).take k = t.take k :=
        List.take_append_of_le_length (by omega)
      have h0 := hmiss k (by simp; omega)
      rwa [htk] at h0

/-- If the marker is absent at every directory the fuel allows visiting and
the chain is longer than the fuel, the loop exhausts its fuel and errors. -/
theorem getRootPathLoop_exhausted (hasMarker : List String → Bool) (wd : List String) :
    ∀ (fuel : Nat) (cur : List String), fuel ≤ cur.length →
      (∀ k < fuel, hasMarker (cur.take (cur.length - k)) = false) →
      getRootPathLoop hasMarker wd fuel cur = .error "root not found" := by
  intro fuel
  induction fuel with
  | zero => intro cur _ _; rfl
  | succ f ih =>
    intro cur hlen hmiss
    have hcur : hasMarker cur = false := by
      have h0 := hmiss 0 (by omega)
      rwa [Nat.sub_zero, List.take_length] at h0
    have hne : (cur.dropLast == cur) = false := by
      apply beq_eq_false_iff_ne.mpr
      intro h
      have hcl := congrArg List.length h
      rw [List.length_dropLast] at hcl
      omega
    rw [getRootPathLoop]
    simp only [hcur, hne, Bool.false_eq_true, if_false]
    apply ih
    · rw [List.length_dropLast]; omega
    · intro k hk
      rw [List.length_dropLast, List.dropLast_eq_take, List.take_take]
      have hmin : (cur.length - 1 - k) ⊓ (cur.length - 1) = cur.length - (k + 1) := by omega
      rw [hmin]
      exact hmiss (k + 1) (by omega)

/-! ## Claims -/

/-- C1 (amended).  With directories as component lists and `hasMarker d`
meaning `<d>/work.toml` exists: (1) from a start nested at most 7 hops below
a marked directory `r`, with no marker strictly between, `getRootPath`
returns `r`; (2) when no directory on the chain up to the filesystem
boundary carries the marker and the boundary is within the hop budget
(start at depth ≤ 7), it returns the original working directory, not an
error; (3) but when the hop limit is exhausted before finding a marker or
hitting the boundary (start at depth ≥ 8, no marker within 8 visited
directories), it returns the error `"root not found"` rather than the
fallback. -/
theorem getRootPath_correct :
    (∀ (hasMarker : List String → Bool) (r s : List String),
        hasMarker r = true → s.length ≤ 7 →
        (∀ k < s.length, hasMarker (r ++ s.take (k + 1)) = false) →
        getRootPath hasMarker (r ++ s) = .ok r)
    ∧ (∀ (hasMarker : List String → Bool) (wd : List String),
        wd.length ≤ 7 →
        (∀ k < wd.length + 1, hasMarker (wd.take k) = false) →
        getRootPath hasMarker wd = .ok wd)
    ∧ (∀ (hasMarker : List String → Bool) (wd : List String),
        8 ≤ wd.length →
        (∀ k < 8, hasMarker (wd.take (wd.length - k)) = false) →
        getRootPath hasMarker wd = .error "root not found") := by
  refine ⟨?_, ?_, ?_⟩
  · intro hasMarker r s hr hlen hmiss
    exact getRootPathLoop_marker hasMarker (r ++ s) r hr s 8 (by omega) hmiss
  · intro hasMarker wd hlen hmiss
    exact getRootPathLoop_boundary hasMarker wd wd 8 (by omega) hmiss
  · intro hasMarker wd hlen hmiss
    exact getRootPathLoop_exhausted hasMarker wd 8 wd (by omega) hmiss

/-- C1 (counterexample to the claim as stated): in a marker-free directory
tree, from a working directory 8 components deep the hop limit is exhausted
before the filesystem boundary is reached, and `getRootPath` returns the
error `"root not found"` — not the original working directory, contradicting
the claim that a hop-limit stop yields the fallback and never an error. -/
theorem getRootPath_hopLimit_errors :
    getRootPath (fun _ => false) ["a", "b", "c", "d", "e", "f", "g", "h"]
        = .error "root not found"
    ∧ getRootPath (fun _ => false) ["a", "b", "c", "d", "e", "f", "g", "h"]
        ≠ .ok ["a", "b", "c", "d", "e", "f", "g", "h"] := by
  refine ⟨rfl, ?_⟩
  intro h
  rw [show getRootPath (fun _ => false) ["a", "b", "c", "d", "e", "f", "g", "h"]
      = .error "root not found" from rfl] at h
  exact Except.noConfusion h

/-- C1 witness: a start two hops below a marked root is resolved to it. -/
theorem getRootPath_correct_witness :
    getRootPath (fun d => d == ["r"]) (["r"] ++ ["a", "b"]) = .ok ["r"] :=
  getRootPath_correct.1 (fun d => d == ["r"]) ["r"] ["a", "b"] (by decide) (by decide)
    (by decide)

/-- A script entry is missing exactly when the Go map read returns `""`:
an absent key and a key mapped to the empty string are indistinguishable. -/
theorem scriptMissing_iff_lookup_empty (m : ModuleConfig) (scriptName : String) :
    scriptMissing m scriptName = true ↔ lookupScript m.scripts scriptName = "" := by
  unfold scriptMissing lookupScript
  cases m.scripts.find? (fun kv => kv.1 == scriptName) with
  | none => simp
  | some kv => simp

/-- The execution loop only fails with an error propagated from the exec
collaborator, never with a classification error. -/
theorem runScripts_error_execFailed (exec : String → String → Except String Unit)
    (root scriptName : String) (dryRun : Bool) (modules : List ModuleConfig) :
    ∀ e, (runScripts exec root scriptName dryRun modules).2 = .error e →
      ∃ msg, e = .execFailed msg := by
  induction modules with
  | nil => intro e h; exact absurd h (by simp [runScripts])
  | cons m rest ih =>
    intro e h
    simp only [runScripts] at h
    split at h
    · exact ih e h
    · split at h
      · exact ih e h
      · split at h
        next e2 heq =>
          simp only at h
          exact ⟨e2, (Except.error.inj h).symm⟩
        next heq =>
          simp only at h
          exact ih e h

/-- If every target misses the script, classification fails with the
all-missing error (independently of `allowMissing`). -/
theorem dispatch_allMissing (exec : String → String → Except String Unit)
    (root scriptName : String) (allowMissing dryRun : Bool)
    (modules : List ModuleConfig)
    (hall : ∀ m ∈ modules, scriptMissing m scriptName = true) :
    dispatch exec root scriptName allowMissing dryRun modules
      = ([], .error .missingAll) := by
  have hlen : ((modules.filter (fun m => scriptMissing m scriptName)).map
      (fun m => m.name)).length = modules.length := by
    rw [List.length_map]
    exact List.filter_length_eq_length.mpr hall
  simp only [dispatch]
  rw [if_pos hlen]

/-- If some but not all targets miss the script and `allowMissing` is off,
classification fails naming exactly the missing modules. -/
theorem dispatch_someMissing (exec : String → String → Except String Unit)
    (root scriptName : String) (allowMissing dryRun : Bool)
    (modules : List ModuleConfig)
    (hex : ∃ m ∈ modules, scriptMissing m scriptName = true)
    (hnall : ¬∀ m ∈ modules, scriptMissing m scriptName = true)
    (ham : allowMissing = false) :
    dispatch exec root scriptName allowMissing dryRun modules
      = ([], .error (.missingSome scriptName
          ((modules.filter (fun m => scriptMissing m scriptName)).map
            (fun m => m.name)))) := by
  have hne : modules.filter (fun m => scriptMissing m scriptName) ≠ [] := by
    intro h
    obtain ⟨m, hm, hmiss⟩ := hex
    have := List.filter_eq_nil_iff.mp h m hm
    simp [hmiss] at this
  have hpos : 0 < ((modules.filter (fun m => scriptMissing m scriptName)).map
      (fun m => m.name)).length := by
    rw [List.length_map]
    exact List.length_pos.mpr hne
  have hlen : ((modules.filter (fun m => scriptMissing m scriptName)).map
      (fun m => m.name)).length ≠ modules.length := by
    rw [List.length_map]
    intro h
    exact hnall (List.filter_length_eq_length.mp h)
  simp only [dispatch]
  rw [if_neg hlen, if_pos ⟨hpos, ham⟩]

/-- If not all targets miss the script, and missing ones are tolerated,
classification passes and the dispatcher proceeds to the execution loop. -/
theorem dispatch_permitted (exec : String → String → Except String Unit)
    (root scriptName : String) (allowMissing dryRun : Bool)
    (modules : List ModuleConfig)
    (hnall : ¬∀ m ∈ modules, scriptMissing m scriptName = true)
    (hallow : (∃ m ∈ modules, scriptMissing m scriptName = true) → allowMissing = true) :
    dispatch exec root scriptName allowMissing dryRun modules
      = runScripts exec root scriptName dryRun modules := by
  have hlen : ((modules.filter (fun m => scriptMissing m scriptName)).map
      (fun m => m.name)).length ≠ modules.length := by
    rw [List.length_map]
    intro h
    exact hnall (List.filter_length_eq_length.mp h)
  have hnot : ¬(0 < ((modules.filter (fun m => scriptMissing m scriptName)).map
      (fun m => m.name)).length ∧ allowMissing = false) := by
    rintro ⟨hpos, hfalse⟩
    rw [List.length_map] at hpos
    obtain ⟨m, hm⟩ := List.exists_mem_of_ne_nil _ (List.length_pos.mp hpos)
    have hmem := List.mem_filter.mp hm
    have := hallow ⟨m, hmem.1, hmem.2⟩
    rw [this] at hfalse
    exact Bool.noConfusion hfalse
  simp only [dispatch]
  rw [if_neg hlen, if_neg hnot]

/-- C2.  For a non-empty resolved target list, the dispatcher fails with a
validation error before any execution exactly when every target misses the
requested script (whatever `allowMissing` says), or some but not all miss it
and `allowMissing` is off — in which case the error names the missing
modules; otherwise the dispatcher goes on to the execution loop, whose
errors all come from the exec collaborator.  A script entry mapped to `""`
counts as missing (last conjunct). -/
theorem dispatch_classification (exec : String → String → Except String Unit)
    (root scriptName : String) (allowMissing dryRun : Bool)
    (modules : List ModuleConfig) (_hne : modules ≠ []) :
    ((∀ m ∈ modules, scriptMissing m scriptName = true) →
        dispatch exec root scriptName allowMissing dryRun modules
          = ([], .error .missingAll))
    ∧ ((∃ m ∈ modules, scriptMissing m scriptName = true) →
        ¬(∀ m ∈ modules, scriptMissing m scriptName = true) →
        allowMissing = false →
        dispatch exec root scriptName allowMissing dryRun modules
          = ([], .error (.missingSome scriptName
              ((modules.filter (fun m => scriptMissing m scriptName)).map
                (fun m => m.name)))))
    ∧ (¬(∀ m ∈ modules, scriptMissing m scriptName = true) →
        ((∃ m ∈ modules, scriptMissing m scriptName = true) → allowMissing = true) →
        dispatch exec root scriptName allowMissing dryRun modules
            = runScripts exec root scriptName dryRun modules
        ∧ ∀ e, (dispatch exec root scriptName allowMissing dryRun modules).2 = .error e →
            ∃ msg, e = .execFailed msg)
    ∧ (∀ m : ModuleConfig, lookupScript m.scripts scriptName = "" →
        scriptMissing m scriptName = true) := by
  refine ⟨?_, ?_, ?_, ?_⟩
  · exact dispatch_allMissing exec root scriptName allowMissing dryRun modules
  · exact dispatch_someMissing exec root scriptName allowMissing dryRun modules
  · intro hnall hallow
    have heq := dispatch_permitted exec root scriptName allowMissing dryRun modules hnall hallow
    refine ⟨heq, ?_⟩
    rw [heq]
    exact runScripts_error_execFailed exec root scriptName dryRun modules
  · intro m hm
    exact (scriptMissing_iff_lookup_empty m scriptName).mpr hm

/-- C2 witness: of two targets, `b` misses script `t` and `allowMissing` is
off — the dispatcher rejects, naming `b`, without executing anything. -/
theorem dispatch_classification_witness :
    dispatch (fun _ _ => .ok ()) "/r" "t" false false
        [⟨"a", "a", [("t", "go build")]⟩, ⟨"b", "b", []⟩]
      = ([], .error (.missingSome "t" ["b"])) :=
  ((dispatch_classification (fun _ _ => .ok ()) "/r" "t" false false
      [⟨"a", "a", [("t", "go build")]⟩, ⟨"b", "b", []⟩] (by decide)).2.1
    (by decide) (by decide) rfl).trans (by decide)

/-- C3 (counterexample to the claim as stated): the expression `all,ghost`
splits into a token list without `root` that is not the sole token `all`,
yet resolution keeps a module named `y` although `y` is not among the
tokens — because the source only tests the token `all` at position 0, any
list whose first token is `all` selects every module. -/
theorem resolveTargets_firstAll_counterexample :
    resolveTargets ["all", "ghost"] [⟨"y", "y", []⟩] = [⟨"y", "y", []⟩]
    ∧ contains ["all", "ghost"] "y" = false := by
  exact ⟨by decide, by decide⟩

/-- C3 (amended).  For a token list without `root` whose FIRST token is not
`all`, resolution returns exactly the discovered modules whose name occurs
among the tokens, in discovery order (a sublist of the discovery list), and
unmatched tokens are dropped without error. -/
theorem resolveTargets_filter (targets : List String) (allModules : List ModuleConfig)
    (_hroot : contains targets "root" = false)
    (hall : targets.headD "" ≠ "all") :
    resolveTargets targets allModules
        = allModules.filter (fun m => contains targets m.name)
    ∧ (resolveTargets targets allModules).Sublist allModules
    ∧ ∀ m, m ∈ resolveTargets targets allModules
        ↔ m ∈ allModules ∧ contains targets m.name = true := by
  have hb : (targets.headD "" == "all") = false := by simpa using hall
  have hfe : resolveTargets targets allModules
      = allModules.filter (fun m => contains targets m.name) := by
    unfold resolveTargets
    simp only [hb, Bool.false_or]
  refine ⟨hfe, ?_, ?_⟩
  · rw [hfe]; exact List.filter_sublist _
  · intro m
    rw [hfe]
    simp [List.mem_filter]

/-- C3 witness: `A,ghost` against the single discovered module `A` keeps
exactly `A`; the unmatched token `ghost` is dropped without error. -/
theorem resolveTargets_filter_witness :
    resolveTargets ["A", "ghost"] [⟨"A", "A", []⟩] = [⟨"A", "A", []⟩] :=
  ((resolveTargets_filter ["A", "ghost"] [⟨"A", "A", []⟩] (by decide) (by decide)).1).trans
    (by decide)

/-- Under `dryRun` the execution loop performs no invocation and succeeds. -/
theorem runScripts_dryRun (exec : String → String → Except String Unit)
    (root scriptName : String) (modules : List ModuleConfig) :
    runScripts exec root scriptName true modules = ([], .ok ()) := by
  induction modules with
  | nil => rfl
  | cons m rest ih =>
    simp only [runScripts]
    split
    · exact ih
    · rw [if_pos trivial]
      exact ih

/-- C4.  Under `dryRun` the dispatcher never invokes the exec collaborator:
the invocation trace is empty, the whole result does not depend on the
collaborator at all, and whenever classification permits execution the
result is still success. -/
theorem dispatch_dryRun (exec exec2 : String → String → Except String Unit)
    (root scriptName : String) (allowMissing : Bool) (modules : List ModuleConfig) :
    (dispatch exec root scriptName allowMissing true modules).1 = []
    ∧ dispatch exec root scriptName allowMissing true modules
        = dispatch exec2 root scriptName allowMissing true modules
    ∧ (¬(∀ m ∈ modules, scriptMissing m scriptName = true) →
        ((∃ m ∈ modules, scriptMissing m scriptName = true) → allowMissing = true) →
        (dispatch exec root scriptName allowMissing true modules).2 = .ok ()) := by
  by_cases hall : ∀ m ∈ modules, scriptMissing m scriptName = true
  · rw [dispatch_allMissing exec root scriptName allowMissing true modules hall,
      dispatch_allMissing exec2 root scriptName allowMissing true modules hall]
    exact ⟨rfl, rfl, fun hnall _ => absurd hall hnall⟩
  · by_cases hsome : ∃ m ∈ modules, scriptMissing m scriptName = true
    · by_cases ham : allowMissing
      · rw [dispatch_permitted exec root scriptName allowMissing true modules hall
            (fun _ => ham),
          dispatch_permitted exec2 root scriptName allowMissing true modules hall
            (fun _ => ham),
          runScripts_dryRun exec root scriptName modules,
          runScripts_dryRun exec2 root scriptName modules]
        exact ⟨rfl, rfl, fun _ _ => rfl⟩
      · have ham2 : allowMissing = false := by simpa using ham
        rw [dispatch_someMissing exec root scriptName allowMissing true modules
            hsome hall ham2,
          dispatch_someMissing exec2 root scriptName allowMissing true modules
            hsome hall ham2]
        refine ⟨rfl, rfl, ?_⟩
        intro _ hallow
        have := hallow hsome
        rw [this] at ham2
        exact Bool.noConfusion ham2
    · rw [dispatch_permitted exec root scriptName allowMissing true modules hall
          (fun hex => absurd hex hsome),
        dispatch_permitted exec2 root scriptName allowMissing true modules hall
          (fun hex => absurd hex hsome),
        runScripts_dryRun exec root scriptName modules,
        runScripts_dryRun exec2 root scriptName modules]
      exact ⟨rfl, rfl, fun _ _ => rfl⟩

/-- C4 witness: with a collaborator that always fails, a dry run over a
target that has the script still succeeds and invokes nothing. -/
theorem dispatch_dryRun_witness :
    (dispatch (fun _ _ => .error "boom") "/r" "t" false true
        [⟨"a", "a", [("t", "x")]⟩]).1 = []
    ∧ (dispatch (fun _ _ => .error "boom") "/r" "t" false true
        [⟨"a", "a", [("t", "x")]⟩]).2 = .ok () := by
  have h := dispatch_dryRun (fun _ _ => .error "boom") (fun _ _ => .ok ()) "/r" "t" false
      [⟨"a", "a", [("t", "x")]⟩]
  exact ⟨h.1, h.2.2 (by decide) (fun hx => absurd hx (by decide))⟩

/-- C5.  Whenever the comma-split token list of the target expression
contains `root` together with at least one other token, the run command
stops with the root-conflict validation error — its text is the source's —
and its invocation trace is empty: no script is executed. -/
theorem runCommand_rootConflict (exec : String → String → Except String Unit)
    (root scriptName targetFlag : String) (allowMissing dryRun : Bool)
    (discovered : Except String (List ModuleConfig))
    (hname : scriptName ≠ "")
    (hconflict : contains (splitComma targetFlag) "root" = true)
    (hlen : 1 < (splitComma targetFlag).length) :
    runCommand exec true root scriptName targetFlag allowMissing dryRun discovered
      = ([], .error .rootAndModules)
    ∧ RunError.rootAndModules.message
      = "cannot run script in root and in modules at the same time, you\x27re being too fancy" := by
  refine ⟨?_, rfl⟩
  have hb : (scriptName == "") = false := by simpa using hname
  unfold runCommand
  simp only [hb, Bool.false_eq_true, if_false]
  rw [if_neg (by simp : ¬(true = false)), if_pos ⟨hconflict, hlen⟩]

/-- C5 witness: `--target root,modA` is rejected with the conflict error. -/
theorem runCommand_rootConflict_witness :
    runCommand (fun _ _ => .ok ()) true "/r" "build" "root,modA" false false (.ok [])
      = ([], .error .rootAndModules) :=
  (runCommand_rootConflict (fun _ _ => .ok ()) "/r" "build" "root,modA" false false
    (.ok []) (by decide) (by decide) (by decide)).1

/-- C6.  During execution, targets run sequentially in resolved order and the
first collaborator failure aborts the rest: the modules before the failing
one (with a non-empty script) are each invoked once in order, the failing
module's invocation is last — nothing after it is ever invoked, nothing is
retried or undone — and the propagated error names the failing directory and
the underlying cause. -/
theorem runScripts_firstFailure
    (oracle : String → String → Option String) (root scriptName : String)
    (pre : List ModuleConfig) (failMod : ModuleConfig) (post : List ModuleConfig)
    (cause : String)
    (hpre : ∀ m ∈ pre, lookupScript m.scripts scriptName ≠ "" →
        oracle (root ++ "/" ++ m.relativePath) (lookupScript m.scripts scriptName) = none)
    (hscript : lookupScript failMod.scripts scriptName ≠ "")
    (hfail : oracle (root ++ "/" ++ failMod.relativePath)
        (lookupScript failMod.scripts scriptName) = some cause) :
    runScripts (bashCommand oracle) root scriptName false (pre ++ failMod :: post)
      = (pre.filterMap (fun m =>
            if lookupScript m.scripts scriptName = "" then none
            else some (root ++ "/" ++ m.relativePath, lookupScript m.scripts scriptName))
          ++ [(root ++ "/" ++ failMod.relativePath, lookupScript failMod.scripts scriptName)],
        .error (.execFailed ("failed to run command in "
          ++ (root ++ "/" ++ failMod.relativePath) ++ ": " ++ cause))) := by
  induction pre with
  | nil =>
    rw [List.nil_append, List.filterMap_nil, List.nil_append, runScripts]
    have hb : (lookupScript failMod.scripts scriptName == "") = false := by
      simpa using hscript
    simp [hb, bashCommand, hfail]
  | cons m pre2 ih =>
    have hpre2 : ∀ m2 ∈ pre2, lookupScript m2.scripts scriptName ≠ "" →
        oracle (root ++ "/" ++ m2.relativePath) (lookupScript m2.scripts scriptName)
          = none :=
      fun m2 hm2 => hpre m2 (List.mem_cons_of_mem m hm2)
    have hm := hpre m (List.mem_cons_self m pre2)
    rw [List.cons_append, runScripts]
    by_cases hempty : lookupScript m.scripts scriptName = ""
    · have hb : (lookupScript m.scripts scriptName == "") = true := by simp [hempty]
      rw [if_pos hb]
      have hf : (fun m2 : ModuleConfig =>
          if lookupScript m2.scripts scriptName = "" then none
          else some (root ++ "/" ++ m2.relativePath,
            lookupScript m2.scripts scriptName)) m = none := by
        simp [hempty]
      rw [@List.filterMap_cons_none ModuleConfig (String × String)
        (fun m2 : ModuleConfig =>
          if lookupScript m2.scripts scriptName = "" then none
          else some (root ++ "/" ++ m2.relativePath,
            lookupScript m2.scripts scriptName)) m pre2 hf]
      exact ih hpre2
    · have hb : ¬((lookupScript m.scripts scriptName == "") = true) := by
        simpa using hempty
      rw [if_neg hb, if_neg (by simp : ¬(false = true))]
      have hok : bashCommand oracle (root ++ "/" ++ m.relativePath)
          (lookupScript m.scripts scriptName) = .ok () := by
        simp [bashCommand, hm hempty]
      rw [hok]
      have hf : (fun m2 : ModuleConfig =>
          if lookupScript m2.scripts scriptName = "" then none
          else some (root ++ "/" ++ m2.relativePath,
            lookupScript m2.scripts scriptName)) m
          = some (root ++ "/" ++ m.relativePath, lookupScript m.scripts scriptName) := by
        simp [hempty]
      rw [@List.filterMap_cons_some ModuleConfig (String × String)
        (fun m2 : ModuleConfig =>
          if lookupScript m2.scripts scriptName = "" then none
          else some (root ++ "/" ++ m2.relativePath,
            lookupScript m2.scripts scriptName)) m pre2
        (root ++ "/" ++ m.relativePath, lookupScript m.scripts scriptName) hf]
      show ((root ++ "/" ++ m.relativePath, lookupScript m.scripts scriptName) ::
          (runScripts (bashCommand oracle) root scriptName false
            (pre2 ++ failMod :: post)).1,
        (runScripts (bashCommand oracle) root scriptName false
            (pre2 ++ failMod :: post)).2) = _
      rw [ih hpre2]
      simp

/-- C6 witness: of three targets, the second one fails; the first two are
invoked in order, the third never, and the error names `/r/b` and the cause. -/
theorem runScripts_firstFailure_witness :
    runScripts (bashCommand (fun p _ => if p = "/r/b" then some "exit 1" else none))
        "/r" "t" false
        [⟨"a", "a", [("t", "x")]⟩, ⟨"b", "b", [("t", "y")]⟩, ⟨"c", "c", [("t", "z")]⟩]
      = ([("/r/a", "x"), ("/r/b", "y")],
         .error (.execFailed "failed to run command in /r/b: exit 1")) := by
  have h := runScripts_firstFailure
      (fun p _ => if p = "/r/b" then some "exit 1" else none) "/r" "t"
      [⟨"a", "a", [("t", "x")]⟩] ⟨"b", "b", [("t", "y")]⟩ [⟨"c", "c", [("t", "z")]⟩]
      "exit 1" (by decide) (by decide) (by decide)
  exact h.trans (by decide)

/-- C7.  Discovery output is sorted ascending by module name whatever the
filesystem walk order: for any walk order the result is a permutation of
the visited modules that is sorted by name, and two walks of the same
module set (any two permutations) yield the same name sequence. -/
theorem getModules_sorted (visited visited2 : List ModuleConfig)
    (hperm : visited.Perm visited2) :
    (getModules visited).Perm visited
    ∧ List.Pairwise byName (getModules visited)
    ∧ (getModules visited).map (fun m => m.name)
        = (getModules visited2).map (fun m => m.name) := by
  have hp1 : (getModules visited).Perm visited := List.perm_insertionSort byName visited
  have hp2 : (getModules visited2).Perm visited2 := List.perm_insertionSort byName visited2
  have hs1 : List.Sorted byName (getModules visited) :=
    List.sorted_insertionSort byName visited
  have hs2 : List.Sorted byName (getModules visited2) :=
    List.sorted_insertionSort byName visited2
  refine ⟨hp1, hs1, ?_⟩
  apply List.eq_of_perm_of_sorted (r := nameLe)
  · exact ((hp1.map _).trans (hperm.map _)).trans ((hp2.map _).symm)
  · exact List.pairwise_map.mpr hs1
  · exact List.pairwise_map.mpr hs2

/-- C7 witness: the two enumeration orders of modules `a`, `b` sort to the
same name-ascending output. -/
theorem getModules_sorted_witness :
    getModules [(⟨"b", "b", []⟩ : ModuleConfig), ⟨"a", "a", []⟩]
        = [⟨"a", "a", []⟩, ⟨"b", "b", []⟩]
    ∧ (getModules [(⟨"b", "b", []⟩ : ModuleConfig), ⟨"a", "a", []⟩]).map (fun m => m.name)
        = (getModules [(⟨"a", "a", []⟩ : ModuleConfig), ⟨"b", "b", []⟩]).map
            (fun m => m.name) :=
  ⟨by decide, (getModules_sorted _ _ (List.Perm.swap _ _ _)).2.2⟩

/-- C8.  When the root config document already exists, `init` fails with the
already-exists error and its effect trace is empty: nothing is prompted,
no toolchain command runs, and in particular no write happens. -/
theorem init_alreadyExists (env : InitEnv) (h : env.rootConfigExists = true) :
    init env = ([], .error (.alreadyExists env.root))
    ∧ InitError.message (.alreadyExists env.root)
        = "monorepo already exists at " ++ env.root := by
  refine ⟨?_, rfl⟩
  unfold init
  rw [if_pos h]

/-- C8 witness: a second `init` on an initialized root is rejected with an
empty effect trace. -/
theorem init_alreadyExists_witness :
    init { rootConfigExists := true, goWorkspaceExists := true, root := "/r",
           argName := "", nameResponse := "", vendorResponse := "",
           goWorkInitError := none, writeError := none }
      = ([], .error (.alreadyExists "/r")) :=
  (init_alreadyExists
    { rootConfigExists := true, goWorkspaceExists := true, root := "/r",
      argName := "", nameResponse := "", vendorResponse := "",
      goWorkInitError := none, writeError := none } rfl).1

/-- C9 (the code evaluated at the failing input).  With no name argument and
empty replies to both prompts, `init` does prompt for name and vendor, and
the empty name reply takes the advertised default (the root folder's base
name `demo`) — but the empty vendor reply, advertised as defaulting to yes,
produces a written `RootConfig` whose `vendor` field is `false`: the code
compares the trimmed reply with the literal `"y"`, so only an explicit `y`
yields `true`, contradicting the printed `default: (y)`. -/
theorem init_emptyVendorResponse_vendorFalse :
    init { rootConfigExists := false, goWorkspaceExists := true, root := "/repo/demo",
           argName := "", nameResponse := "", vendorResponse := "",
           goWorkInitError := none, writeError := none }
      = ([.promptName (namePromptText "demo"), .promptVendor vendorPromptText,
          .writeRootConfig
            { name := "demo", version := "0.1.0", strategy := "workspace",
              vendor := false, scripts := [] }], .ok ())
    ∧ vendorPromptText = "Do you want to vendor dependencies? (y/n) default: (y) " := by
  exact ⟨by decide, rfl⟩

/-- C10.  When the resolved target list of a run invocation is empty —
no modules discovered at all, or no token of the target expression matching
any discovered module — the run command fails with the all-missing error
(its two compared lengths are both zero) instead of succeeding with nothing
to do. -/
theorem runCommand_emptyTargets (exec : String → String → Except String Unit)
    (root scriptName targetFlag : String) (allowMissing dryRun : Bool)
    (allModules : List ModuleConfig)
    (hname : scriptName ≠ "")
    (hconf : ¬(contains (splitComma targetFlag) "root" = true
        ∧ 1 < (splitComma targetFlag).length))
    (hnotroot : (splitComma targetFlag).headD "" ≠ "root")
    (hempty : resolveTargets (splitComma targetFlag) allModules = []) :
    runCommand exec true root scriptName targetFlag allowMissing dryRun (.ok allModules)
      = ([], .error .missingAll) := by
  have hb : (scriptName == "") = false := by simpa using hname
  have hb2 : ((splitComma targetFlag).headD "" == "root") = false := by
    simpa using hnotroot
  unfold runCommand
  simp only [hb, hb2, Bool.false_eq_true, if_false]
  rw [if_neg (by simp : ¬(true = false)), if_neg hconf, hempty]
  exact dispatch_allMissing exec root scriptName allowMissing dryRun [] (by simp)

/-- C10 witness: the sole token `ghost` matches no discovered module, and the
run fails with the all-missing error. -/
theorem runCommand_emptyTargets_witness :
    runCommand (fun _ _ => .ok ()) true "/r" "t" "ghost" false false
        (.ok [⟨"a", "a", [("t", "x")]⟩])
      = ([], .error .missingAll) :=
  runCommand_emptyTargets (fun _ _ => .ok ()) "/r" "t" "ghost" false false
    [⟨"a", "a", [("t", "x")]⟩] (by decide) (by decide) (by decide) (by decide)

end Gorepo
